import Mathlib

/-!
Shallow embedding of `src/patcher.py` (gtnhpatcher), a modpack patcher that
loads a JSON manifest and then patches a local instance directory: it deletes
and downloads mod files under `mods/`, merges key=value changes into config
files under `config/`, and downloads whole config files.

Paths are strings; the filesystem is a finite map from paths to file
contents (text and downloaded bytes both modelled as `String`) together with
the set of directories that exist.  Network access is a pure oracle
`fetch : String → String` for the success path (any network failure in the
source propagates as an uncaught exception and aborts the run before any
further state change), and an `HttpResult`-valued oracle where status codes
matter (`load_manifest`).
-/

/-- Python whitespace for `str.strip()` (ASCII part; the source strips
config lines and keys/values with the default `strip`). -/
def isPyWhitespace (c : Char) : Bool :=
  c = ' ' || c = '\t' || c = '\n' || c = '\r' || c = '\x0b' || c = '\x0c'

/-- Embedding of Python `str.strip()` on the character list: drop leading and
trailing whitespace. -/
def stripChars (cs : List Char) : List Char :=
  ((cs.dropWhile isPyWhitespace).reverse.dropWhile isPyWhitespace).reverse

/-- Embedding of Python `s.strip()` on strings. -/
def pyStrip (s : String) : String :=
  String.mk (stripChars s.toList)

/-- Splitting a character list on a separator, Python `str.split(sep)` style:
splitting the empty list gives one empty group, a leading/trailing separator
an empty group at that end. -/
def splitOnChar (sep : Char) : List Char → List (List Char)
  | [] => [[]]
  | c :: rest =>
    if c = sep then [] :: splitOnChar sep rest
    else
      match splitOnChar sep rest with
      | [] => [[c]]
      | g :: gs => (c :: g) :: gs

/-- Joining groups with a separator (Python `sep.join(groups)`). -/
def joinChar (sep : Char) : List (List Char) → List Char
  | [] => []
  | [g] => g
  | g :: gs => g ++ sep :: joinChar sep gs

/-- Embedding of Python `str.lower()` (ASCII case folding). -/
def pyLower (s : String) : String :=
  String.mk (s.toList.map Char.toLower)

/-- Embedding of Python `s.split("=", 1)` for a string known to contain `'='`:
split at the first `'='`.  (On input without `'='` the result `(cs, [])` is
never used: the source guards the split with `if "=" in line`.) -/
def splitFirstEq : List Char → List Char × List Char
  | [] => ([], [])
  | c :: rest =>
    if c = '=' then ([], rest)
    else
      let r := splitFirstEq rest
      (c :: r.1, r.2)

/-- Embedding of Python dict assignment `d[k] = v` on an insertion-ordered
association list with unique keys: replace the value in place if the key is
present, otherwise append the new pair at the end. -/
def upsert : List (String × String) → String → String → List (String × String)
  | [], k, v => [(k, v)]
  | (k', v') :: rest, k, v =>
    if k' == k then (k, v) :: rest else (k', v') :: upsert rest k v

/-- Lookup in an insertion-ordered association list (Python `d[k]` / `k in d`). -/
def dictLookup : List (String × String) → String → Option String
  | [], _ => none
  | (k', v') :: rest, k => if k' == k then some v' else dictLookup rest k

/-- Filesystem state: files as a finite map from path to content, plus the
set of directories that exist.  Both in creation order. -/
structure FS where
  files : List (String × String)
  dirs : List String
deriving DecidableEq

/-- Content of the file at a path, if it exists. -/
def FS.read (fs : FS) (p : String) : Option String :=
  dictLookup fs.files p

/-- Embedding of `Path.exists()` / `os.path.exists()` on the files map. -/
def FS.existsFile (fs : FS) (p : String) : Bool :=
  (fs.read p).isSome

/-- Embedding of opening a file for writing: create or overwrite. -/
def FS.write (fs : FS) (p c : String) : FS :=
  { fs with files := upsert fs.files p c }

/-- Embedding of `Path.unlink()`: delete the file at a path. -/
def FS.remove (fs : FS) (p : String) : FS :=
  { fs with files := fs.files.filter (fun kv => !(kv.1 == p)) }

/-- Embedding of `Path.mkdir(exist_ok=True)`: create one directory. -/
def FS.mkdir (fs : FS) (d : String) : FS :=
  if fs.dirs.contains d then fs else { fs with dirs := fs.dirs ++ [d] }

/-- Embedding of `os.path.join` as used by the source (relative sub-paths). -/
def pathJoin (a b : String) : String :=
  a ++ "/" ++ b

/-- Embedding of `os.path.dirname`: everything before the last `/`. -/
def dirname (p : String) : String :=
  String.mk (joinChar '/' (splitOnChar '/' p.toList).dropLast)

/-- Directories created by `os.makedirs(p, exist_ok=True)`: every prefix of
the path, outermost first. -/
def ancestorDirs (p : String) : List String :=
  (List.range (splitOnChar '/' p.toList).length).map
    (fun i => String.mk (joinChar '/' ((splitOnChar '/' p.toList).take (i + 1))))

/-- Embedding of `os.makedirs(p, exist_ok=True)`. -/
def FS.makedirs (fs : FS) (p : String) : FS :=
  (ancestorDirs p).foldl FS.mkdir fs

/-- JSON scalar values that can appear in a manifest `changes` mapping. -/
inductive JsonVal where
  | str (s : String)
  | int (n : Int)
  | bool (b : Bool)
deriving DecidableEq

/-- Embedding of Python `str(value)` on JSON scalars (`str(True) = "True"`). -/
def pyStr : JsonVal → String
  | .str s => s
  | .int n => toString n
  | .bool b => if b then "True" else "False"

/-- Embedding of `str(value).lower() if isinstance(value, bool) else str(value)`
from `edit_configs`. -/
def stringifyValue (v : JsonVal) : String :=
  match v with
  | .bool _ => pyLower (pyStr v)
  | _ => pyStr v

/-- Manifest entry of `add_mods`: `{"url": string}`. -/
structure ModInfo where
  url : String
deriving DecidableEq

/-- Manifest entry of `config_patches`: `{"file": string, "changes": {...}}`
with `changes` an insertion-ordered mapping. -/
structure ConfigPatch where
  file : String
  changes : List (String × JsonVal)
deriving DecidableEq

/-- Manifest entry of `config_downloads`: `{"file": string, "url": string}`. -/
structure DownloadEntry where
  file : String
  url : String
deriving DecidableEq

/-- Parsed manifest.  The source reads each field with `manifest.get(key, [])`
or guards on key presence before a call that is a no-op on `[]`, so an absent
field is modelled as the empty list. -/
structure Manifest where
  remove_mods : List String
  add_mods : List ModInfo
  config_patches : List ConfigPatch
  config_downloads : List DownloadEntry
deriving DecidableEq

/-- Embedding of one iteration of the config-reading loop in `edit_configs`:
`if "=" in line: key, value = line.strip().split("=", 1);
config_data[key.strip()] = value.strip()`.  A line without `'='` yields
nothing. -/
def parseLine (line : String) : Option (String × String) :=
  if line.toList.contains '=' then
    let kv := splitFirstEq (stripChars line.toList)
    some (String.mk (stripChars kv.1), String.mk (stripChars kv.2))
  else none

/-- Fold step of config parsing: record the parsed pair, or drop the line. -/
def parseConfigStep (d : List (String × String)) (line : String) : List (String × String) :=
  match parseLine line with
  | some kv => upsert d kv.1 kv.2
  | none => d

/-- Embedding of the `for line in f` loop of `edit_configs`: parse the file
content into the `config_data` dict.  (Python yields lines with their
trailing newline; splitting on newline instead only adds `'='`-free line
fragments, which the loop drops either way.) -/
def parseConfig (content : String) : List (String × String) :=
  ((splitOnChar '\n' content.toList).map String.mk).foldl parseConfigStep []

/-- Embedding of the `patch["changes"].items()` loop of `edit_configs`:
overlay the stringified changes onto the dict. -/
def applyChanges (d : List (String × String)) (changes : List (String × JsonVal)) :
    List (String × String) :=
  changes.foldl (fun d kv => upsert d kv.1 (stringifyValue kv.2)) d

/-- Embedding of the save loop of `edit_configs`: one `key=value` line per
dict entry, in dict order. -/
def renderConfig (d : List (String × String)) : String :=
  d.foldl (fun acc kv => acc ++ kv.1 ++ "=" ++ kv.2 ++ "\n") ""

/-- Embedding of the body of the `for patch in patches` loop of
`edit_configs`: make the parent directories, read and parse the existing
file if any, overlay the changes, write every pair back. -/
def editConfigFile (fs : FS) (configDir : String) (patch : ConfigPatch) : FS :=
  let configPath := pathJoin configDir patch.file
  let fs := fs.makedirs (dirname configPath)
  let configData :=
    match fs.read configPath with
    | some content => parseConfig content
    | none => []
  (FS.write fs configPath (renderConfig (applyChanges configData patch.changes)))

/-- Embedding of `edit_configs(instance_dir, patches)`. -/
def edit_configs (fs : FS) (instanceDir : String) (patches : List ConfigPatch) : FS :=
  patches.foldl (fun fs p => editConfigFile fs (pathJoin instanceDir "config") p) fs

/-- Embedding of the `url.split("/")[-1]` filename derivation in `patch_mods`
(`splitOnChar` never returns `[]`, so the default is never used). -/
def urlLastSegment (url : String) : String :=
  String.mk ((splitOnChar '/' url.toList).getLastD [])

/-- Embedding of the remove loop of `patch_mods`: for each name, if the file
exists under the mods directory, delete it, else skip. -/
def removeModsPhase (modsDir : String) : FS → List String → FS
  | fs, [] => fs
  | fs, mod :: rest =>
    let target := pathJoin modsDir mod
    removeModsPhase modsDir (if fs.existsFile target then fs.remove target else fs) rest

/-- Embedding of the add loop of `patch_mods`: derive the destination from
the URL's last segment and download only when the destination is absent.
The second component records the URLs actually downloaded (the
`urlretrieve` calls performed). -/
def addModsPhase (fetch : String → String) (modsDir : String) :
    FS → List ModInfo → FS × List String
  | fs, [] => (fs, [])
  | fs, mi :: rest =>
    let dest := pathJoin modsDir (urlLastSegment mi.url)
    if !(fs.existsFile dest) then
      let r := addModsPhase fetch modsDir (fs.write dest (fetch mi.url)) rest
      (r.1, mi.url :: r.2)
    else
      addModsPhase fetch modsDir fs rest

/-- Embedding of `patch_mods(instance_dir, manifest)`: ensure `mods/`, run
the remove loop, run the add loop.  The second component is the download
log of the add loop. -/
def patch_mods (fetch : String → String) (fs : FS) (instanceDir : String) (m : Manifest) :
    FS × List String :=
  let modsDir := pathJoin instanceDir "mods"
  let fs := fs.mkdir modsDir
  let fs := removeModsPhase modsDir fs m.remove_mods
  addModsPhase fetch modsDir fs m.add_mods

/-- Embedding of `download_configs(instance_dir, downloads)`: for each entry
make the parent directories, fetch the URL and write the bytes to the
destination unconditionally. -/
def download_configs (fetch : String → String) (fs : FS) (instanceDir : String)
    (downloads : List DownloadEntry) : FS :=
  let configDir := pathJoin instanceDir "config"
  downloads.foldl
    (fun fs e =>
      let filePath := pathJoin configDir e.file
      let fs := fs.makedirs (dirname filePath)
      fs.write filePath (fetch e.url))
    fs

/-- Embedding of the pipeline `main` runs after loading the manifest:
`patch_mods`, then `edit_configs`, then `download_configs` (the two `if key
in manifest` guards in `main` are equivalent to calling on `[]`, a no-op).
The source binds `tomlkit` at import time (`tomlkit = None` with a printed
warning when the import fails) and never references it afterwards, so the
availability flag is threaded through but cannot influence the result. -/
def runPipeline (_tomlkitAvailable : Bool) (fetch : String → String) (fs : FS)
    (instanceDir : String) (m : Manifest) : FS :=
  let fs := (patch_mods fetch fs instanceDir m).1
  let fs := edit_configs fs instanceDir m.config_patches
  download_configs fetch fs instanceDir m.config_downloads

/-- Result of `requests.get`: a network-level failure, or a response with a
status code and a body. -/
inductive HttpResult where
  | netError
  | response (status : Nat) (body : String)

/-- Errors `load_manifest` can raise: `FileNotFoundError`, a network
exception from `requests.get`, `HTTPError` from `raise_for_status`, and a
JSON decode error.  All propagate uncaught. -/
inductive LoadError where
  | notFound (path : String)
  | netError
  | httpError (status : Nat)
  | parseError
deriving DecidableEq

/-- Default remote manifest URL constant of the source. -/
def DEFAULT_REMOTE_MANIFEST : String :=
  "https://raw.githubusercontent.com/wrldmap/gtnhpatcher/refs/heads/main/manifest.json"

/-- Python truthiness of an optional string argument: `if local:` is false
for both `None` and the empty string. -/
def pyTruthy : Option String → Bool
  | none => false
  | some s => !(s == "")

/-- Embedding of Python `remote or DEFAULT_REMOTE_MANIFEST`: the left operand
when truthy (neither `None` nor the empty string), otherwise the default. -/
def pyOrDefault (remoteArg : Option String) (dflt : String) : String :=
  if pyTruthy remoteArg then remoteArg.getD "" else dflt

/-- Embedding of the remote branch of `load_manifest`: `requests.get(url)`,
`raise_for_status()` (raises for 4xx and 5xx), then `r.json()`. -/
def fetchRemote (http : String → HttpResult) (parseJson : String → Option Manifest)
    (url : String) : Except LoadError Manifest :=
  match http url with
  | .netError => .error .netError
  | .response st body =>
    if 400 ≤ st && st < 600 then .error (.httpError st)
    else
      match parseJson body with
      | some m => .ok m
      | none => .error .parseError

/-- Embedding of `load_manifest(local, remote)`.  `fsRead` is the local
filesystem, `parseJson` the JSON decoder (`none` on invalid JSON).  The
source branches on `if local:` (Python truthiness), checks `path.exists()`,
and otherwise fetches `remote or DEFAULT_REMOTE_MANIFEST`. -/
def load_manifest (fsRead : String → Option String) (http : String → HttpResult)
    (parseJson : String → Option Manifest) (localArg remoteArg : Option String) :
    Except LoadError Manifest :=
  if pyTruthy localArg then
    let l := localArg.getD ""
    match fsRead l with
    | none => .error (.notFound l)
    | some content =>
      match parseJson content with
      | some m => .ok m
      | none => .error .parseError
  else
    fetchRemote http parseJson (pyOrDefault remoteArg DEFAULT_REMOTE_MANIFEST)

/-- Tells whether a `load_manifest` outcome is the `FileNotFoundError` the
local branch raises. -/
def isNotFoundError : Except LoadError Manifest → Bool
  | .error (.notFound _) => true
  | _ => false

lemma dictLookup_upsert_self (d : List (String × String)) (k v : String) :
    dictLookup (upsert d k v) k = some v := by
  induction d with
  | nil => simp [upsert, dictLookup]
  | cons hd tl ih =>
    obtain ⟨k', v'⟩ := hd
    by_cases h : k' = k
    · simp [upsert, h, dictLookup]
    · simpa [upsert, h, dictLookup] using ih

lemma dictLookup_upsert_ne (d : List (String × String)) (k v k₀ : String) (h : k ≠ k₀) :
    dictLookup (upsert d k v) k₀ = dictLookup d k₀ := by
  induction d with
  | nil => simp [upsert, dictLookup, h]
  | cons hd tl ih =>
    obtain ⟨k', v'⟩ := hd
    by_cases hk : k' = k
    · simp [upsert, hk, dictLookup, h]
    · by_cases hk0 : k' = k₀
      · simp [upsert, hk, dictLookup, hk0, Ne.symm h]
      · simpa [upsert, hk, dictLookup, hk0] using ih

lemma FS.read_write_self (fs : FS) (p c : String) : (fs.write p c).read p = some c := by
  simp [FS.write, FS.read, dictLookup_upsert_self]

lemma FS.read_write_ne (fs : FS) (p c q : String) (h : p ≠ q) :
    (fs.write p c).read q = fs.read q := by
  simp [FS.write, FS.read, dictLookup_upsert_ne _ _ _ _ h]

lemma FS.files_mkdir (fs : FS) (d : String) : (fs.mkdir d).files = fs.files := by
  unfold FS.mkdir
  split <;> rfl

lemma FS.read_mkdir (fs : FS) (d p : String) : (fs.mkdir d).read p = fs.read p := by
  simp [FS.read, FS.files_mkdir]

lemma FS.files_makedirs (fs : FS) (d : String) : (fs.makedirs d).files = fs.files := by
  suffices h : ∀ (l : List String) (fs : FS), (l.foldl FS.mkdir fs).files = fs.files by
    simpa [FS.makedirs] using h (ancestorDirs d) fs
  intro l
  induction l with
  | nil => intro fs; rfl
  | cons hd tl ih => intro fs; simpa [FS.files_mkdir] using ih (fs.mkdir hd)

lemma FS.read_makedirs (fs : FS) (d p : String) : (fs.makedirs d).read p = fs.read p := by
  simp [FS.read, FS.files_makedirs]

lemma FS.existsFile_write_self (fs : FS) (p c : String) :
    (fs.write p c).existsFile p = true := by
  simp [FS.existsFile, FS.read_write_self]

lemma FS.mkdir_contains (fs : FS) (d : String) : (fs.mkdir d).dirs.contains d = true := by
  unfold FS.mkdir
  by_cases h : fs.dirs.contains d = true
  · rw [if_pos h]; exact h
  · rw [if_neg h]; simp

lemma FS.mkdir_of_contains (fs : FS) (d : String) (h : fs.dirs.contains d = true) :
    fs.mkdir d = fs := by
  unfold FS.mkdir
  rw [if_pos h]

lemma FS.dirs_write (fs : FS) (p c : String) : (fs.write p c).dirs = fs.dirs := rfl

lemma addModsPhase_dirs (fetch : String → String) (modsDir : String) :
    ∀ (mods : List ModInfo) (fs : FS),
      (addModsPhase fetch modsDir fs mods).1.dirs = fs.dirs := by
  intro mods
  induction mods with
  | nil => intro fs; rfl
  | cons mi rest ih =>
    intro fs
    by_cases h : fs.existsFile (pathJoin modsDir (urlLastSegment mi.url)) = true
    · simpa [addModsPhase, h] using ih fs
    · have h' : fs.existsFile (pathJoin modsDir (urlLastSegment mi.url)) = false := by
        simpa using h
      simpa [addModsPhase, h'] using
        ih (fs.write (pathJoin modsDir (urlLastSegment mi.url)) (fetch mi.url))

lemma addModsPhase_read_preserved (fetch : String → String) (modsDir : String) :
    ∀ (mods : List ModInfo) (fs : FS) (p c : String),
      fs.read p = some c → ((addModsPhase fetch modsDir fs mods).1).read p = some c := by
  intro mods
  induction mods with
  | nil => intro fs p c hp; exact hp
  | cons mi rest ih =>
    intro fs p c hp
    by_cases h : fs.existsFile (pathJoin modsDir (urlLastSegment mi.url)) = true
    · simpa [addModsPhase, h] using ih fs p c hp
    · have h' : fs.existsFile (pathJoin modsDir (urlLastSegment mi.url)) = false := by
        simpa using h
      have hne : p ≠ pathJoin modsDir (urlLastSegment mi.url) := by
        intro he
        rw [he] at hp
        simp [FS.existsFile, hp] at h'
      have hp2 :
          (fs.write (pathJoin modsDir (urlLastSegment mi.url)) (fetch mi.url)).read p
            = some c := by
        rw [FS.read_write_ne _ _ _ _ (Ne.symm hne)]
        exact hp
      simpa [addModsPhase, h'] using
        ih (fs.write (pathJoin modsDir (urlLastSegment mi.url)) (fetch mi.url)) p c hp2

lemma addModsPhase_existsFile_mono (fetch : String → String) (modsDir : String)
    (mods : List ModInfo) (fs : FS) (p : String) (h : fs.existsFile p = true) :
    ((addModsPhase fetch modsDir fs mods).1).existsFile p = true := by
  obtain ⟨c, hc⟩ := Option.isSome_iff_exists.mp (by simpa [FS.existsFile] using h)
  simp [FS.existsFile, addModsPhase_read_preserved fetch modsDir mods fs p c hc]

lemma addModsPhase_dest_exists (fetch : String → String) (modsDir : String) :
    ∀ (mods : List ModInfo) (fs : FS) (mi : ModInfo), mi ∈ mods →
      ((addModsPhase fetch modsDir fs mods).1).existsFile
        (pathJoin modsDir (urlLastSegment mi.url)) = true := by
  intro mods
  induction mods with
  | nil => intro fs mi hm; cases hm
  | cons mi' rest ih =>
    intro fs mi hm
    by_cases h : fs.existsFile (pathJoin modsDir (urlLastSegment mi'.url)) = true
    · rcases List.mem_cons.mp hm with he | ht
      · subst he
        simpa [addModsPhase, h] using addModsPhase_existsFile_mono fetch modsDir rest fs _ h
      · simpa [addModsPhase, h] using ih fs mi ht
    · have h' : fs.existsFile (pathJoin modsDir (urlLastSegment mi'.url)) = false := by
        simpa using h
      rcases List.mem_cons.mp hm with he | ht
      · subst he
        simpa [addModsPhase, h'] using
          addModsPhase_existsFile_mono fetch modsDir rest
            (fs.write (pathJoin modsDir (urlLastSegment mi.url)) (fetch mi.url)) _
            (FS.existsFile_write_self fs _ _)
      · simpa [addModsPhase, h'] using
          ih (fs.write (pathJoin modsDir (urlLastSegment mi'.url)) (fetch mi'.url)) mi ht

lemma addModsPhase_skip (fetch : String → String) (modsDir : String) :
    ∀ (mods : List ModInfo) (fs : FS),
      (∀ mi ∈ mods, fs.existsFile (pathJoin modsDir (urlLastSegment mi.url)) = true) →
      addModsPhase fetch modsDir fs mods = (fs, []) := by
  intro mods
  induction mods with
  | nil => intro fs _; rfl
  | cons mi rest ih =>
    intro fs hall
    have hmi := hall mi (List.mem_cons_self mi rest)
    have hrest : ∀ mj ∈ rest, fs.existsFile (pathJoin modsDir (urlLastSegment mj.url)) = true :=
      fun mj hj => hall mj (List.mem_cons_of_mem mi hj)
    simpa [addModsPhase, hmi] using ih fs hrest

lemma dictLookup_applyChanges_not_mentioned :
    ∀ (changes : List (String × JsonVal)) (d : List (String × String)) (k : String),
      (∀ kv ∈ changes, kv.1 ≠ k) →
      dictLookup (applyChanges d changes) k = dictLookup d k := by
  intro changes
  induction changes with
  | nil => intro d k _; rfl
  | cons c rest ih =>
    intro d k h
    have hc : c.1 ≠ k := h c (List.mem_cons_self c rest)
    have hrest : ∀ kv ∈ rest, kv.1 ≠ k := fun kv hkv => h kv (List.mem_cons_of_mem c hkv)
    calc dictLookup (applyChanges d (c :: rest)) k
        = dictLookup (applyChanges (upsert d c.1 (stringifyValue c.2)) rest) k := by
          simp [applyChanges]
      _ = dictLookup (upsert d c.1 (stringifyValue c.2)) k := ih _ k hrest
      _ = dictLookup d k := dictLookup_upsert_ne d c.1 (stringifyValue c.2) k hc

lemma mem_dropWhile_of_mem (p : Char → Bool) (c : Char) (hc : p c = false) :
    ∀ (cs : List Char), c ∈ cs → c ∈ cs.dropWhile p := by
  intro cs
  induction cs with
  | nil => intro h; cases h
  | cons x rest ih =>
    intro h
    rw [List.dropWhile_cons]
    by_cases hx : p x = true
    · rcases List.mem_cons.mp h with he | ht
      · subst he; rw [hx] at hc; cases hc
      · simpa [hx] using ih ht
    · have hx' : p x = false := by simpa using hx
      simpa [hx'] using h

lemma mem_stripChars (c : Char) (hc : isPyWhitespace c = false) (cs : List Char)
    (h : c ∈ cs) : c ∈ stripChars cs := by
  unfold stripChars
  rw [List.mem_reverse]
  exact mem_dropWhile_of_mem _ c hc _
    (List.mem_reverse.mpr (mem_dropWhile_of_mem _ c hc cs h))

lemma splitFirstEq_spec :
    ∀ (cs : List Char), '=' ∈ cs →
      cs = (splitFirstEq cs).1 ++ '=' :: (splitFirstEq cs).2 ∧ '=' ∉ (splitFirstEq cs).1 := by
  intro cs
  induction cs with
  | nil => intro h; cases h
  | cons c rest ih =>
    intro h
    by_cases hc : c = '='
    · subst hc; simp [splitFirstEq]
    · have hr : '=' ∈ rest := by
        rcases List.mem_cons.mp h with he | ht
        · exact absurd he.symm hc
        · exact ht
      obtain ⟨h1, h2⟩ := ih hr
      refine ⟨?_, ?_⟩
      · simp only [splitFirstEq, if_neg hc]
        rw [List.cons_append]
        exact congrArg (c :: ·) h1
      · simp only [splitFirstEq, if_neg hc]
        intro hm
        rcases List.mem_cons.mp hm with he | ht
        · exact hc he.symm
        · exact h2 ht

lemma upsert_upsert_self (d : List (String × String)) (k v : String) :
    upsert (upsert d k v) k v = upsert d k v := by
  induction d with
  | nil => simp [upsert]
  | cons hd tl ih =>
    obtain ⟨k', v'⟩ := hd
    by_cases h : k' = k
    · simp [upsert, h]
    · simp [upsert, h, ih]

lemma FS.write_write_self (fs : FS) (p c : String) :
    (fs.write p c).write p c = fs.write p c := by
  simp [FS.write, upsert_upsert_self]

lemma FS.mkdir_contains_mono (fs : FS) (d d' : String) (h : fs.dirs.contains d = true) :
    (fs.mkdir d').dirs.contains d = true := by
  unfold FS.mkdir
  by_cases h' : fs.dirs.contains d' = true
  · rw [if_pos h']; exact h
  · rw [if_neg h']
    have hm : d ∈ fs.dirs := by simpa using h
    show (fs.dirs ++ [d']).contains d = true
    simpa using Or.inl hm

lemma foldl_mkdir_contains_mono :
    ∀ (l : List String) (fs : FS) (d : String), fs.dirs.contains d = true →
      (l.foldl FS.mkdir fs).dirs.contains d = true := by
  intro l
  induction l with
  | nil => intro fs d h; exact h
  | cons x xs ih => intro fs d h; exact ih (fs.mkdir x) d (FS.mkdir_contains_mono fs d x h)

lemma foldl_mkdir_contains :
    ∀ (l : List String) (fs : FS) (d : String), d ∈ l →
      (l.foldl FS.mkdir fs).dirs.contains d = true := by
  intro l
  induction l with
  | nil => intro fs d h; cases h
  | cons x xs ih =>
    intro fs d h
    rcases List.mem_cons.mp h with he | ht
    · subst he
      exact foldl_mkdir_contains_mono xs (fs.mkdir d) d (FS.mkdir_contains fs d)
    · exact ih (fs.mkdir x) d ht

lemma foldl_mkdir_all_contained :
    ∀ (l : List String) (fs : FS), (∀ d ∈ l, fs.dirs.contains d = true) →
      l.foldl FS.mkdir fs = fs := by
  intro l
  induction l with
  | nil => intro fs _; rfl
  | cons x xs ih =>
    intro fs h
    have hx := h x (List.mem_cons_self x xs)
    rw [List.foldl_cons, FS.mkdir_of_contains fs x hx]
    exact ih fs (fun d hd => h d (List.mem_cons_of_mem x hd))

lemma FS.makedirs_write_makedirs (fs : FS) (dd p c : String) :
    ((fs.makedirs dd).write p c).makedirs dd = (fs.makedirs dd).write p c := by
  unfold FS.makedirs
  apply foldl_mkdir_all_contained
  intro d hd
  rw [FS.dirs_write]
  exact foldl_mkdir_contains (ancestorDirs dd) fs d hd

lemma isNotFoundError_fetchRemote (http : String → HttpResult)
    (parseJson : String → Option Manifest) (url : String) :
    isNotFoundError (fetchRemote http parseJson url) = false := by
  unfold fetchRemote
  cases http url with
  | netError => rfl
  | response st body =>
    by_cases hst : (400 ≤ st && st < 600) = true
    · simp [hst, isNotFoundError]
    · have hst' : (400 ≤ st && st < 600) = false := by simpa using hst
      simp only [hst', Bool.false_eq_true, if_false]
      cases parseJson body <;> rfl

/-- C2: on an existing config file parsing to the pairs a=1, b=2, a patch with
changes b ↦ 3 and c ↦ true rewrites the file to exactly a=1, b=3, c=true, with
pre-existing keys in original order followed by new keys in patch order; and a
patch applied to a non-existent file creates a file containing exactly the
patch's changes. -/
theorem C2_config_patch_merge (fs : FS) (instanceDir : String) (patch : ConfigPatch)
    (h : fs.read (pathJoin (pathJoin instanceDir "config") patch.file) = none) :
    (edit_configs ⟨[("./config/settings.cfg", "a=1\nb=2\n")], []⟩ "."
        [⟨"settings.cfg", [("b", .int 3), ("c", .bool true)]⟩]).read "./config/settings.cfg"
      = some "a=1\nb=3\nc=true\n" ∧
    (edit_configs fs instanceDir [patch]).read
        (pathJoin (pathJoin instanceDir "config") patch.file)
      = some (renderConfig (applyChanges [] patch.changes)) := by
  constructor
  · decide
  · have h2 : (fs.makedirs
          (dirname (pathJoin (pathJoin instanceDir "config") patch.file))).read
        (pathJoin (pathJoin instanceDir "config") patch.file) = none := by
      rw [FS.read_makedirs]; exact h
    show (editConfigFile fs (pathJoin instanceDir "config") patch).read
        (pathJoin (pathJoin instanceDir "config") patch.file)
      = some (renderConfig (applyChanges [] patch.changes))
    simp only [editConfigFile, h2]
    exact FS.read_write_self _ _ _

/-- Witness for C2 at a concrete filesystem without the target file. -/
theorem C2_witness :
    (edit_configs ⟨[], []⟩ "." [⟨"new.cfg", [("x", .str "y")]⟩]).read
        (pathJoin (pathJoin "." "config") "new.cfg")
      = some (renderConfig (applyChanges [] [("x", .str "y")])) :=
  (C2_config_patch_merge ⟨[], []⟩ "." ⟨"new.cfg", [("x", .str "y")]⟩ rfl).2

/-- C3: for every existing config file and every patch, `edit_configs` rewrites
the entire file — it reads all existing key=value pairs, overlays the patch's
changes and writes every resulting pair back — and every pre-existing key not
mentioned in the changes keeps its value. -/
theorem C3_rewrites_whole_file (fs : FS) (instanceDir : String) (patch : ConfigPatch)
    (content : String)
    (h : fs.read (pathJoin (pathJoin instanceDir "config") patch.file) = some content) :
    (edit_configs fs instanceDir [patch]).read
        (pathJoin (pathJoin instanceDir "config") patch.file)
      = some (renderConfig (applyChanges (parseConfig content) patch.changes)) ∧
    ∀ k v, dictLookup (parseConfig content) k = some v →
      (∀ kv ∈ patch.changes, kv.1 ≠ k) →
      dictLookup (applyChanges (parseConfig content) patch.changes) k = some v := by
  constructor
  · have h2 : (fs.makedirs
          (dirname (pathJoin (pathJoin instanceDir "config") patch.file))).read
        (pathJoin (pathJoin instanceDir "config") patch.file) = some content := by
      rw [FS.read_makedirs]; exact h
    show (editConfigFile fs (pathJoin instanceDir "config") patch).read
        (pathJoin (pathJoin instanceDir "config") patch.file)
      = some (renderConfig (applyChanges (parseConfig content) patch.changes))
    simp only [editConfigFile, h2]
    exact FS.read_write_self _ _ _
  · intro k v hk hmem
    rw [dictLookup_applyChanges_not_mentioned patch.changes (parseConfig content) k hmem]
    exact hk

/-- Witness for C3 at a concrete file with one untouched key. -/
theorem C3_witness :
    (edit_configs ⟨[("./config/s.cfg", "a=1\n")], []⟩ "." [⟨"s.cfg", [("b", .int 2)]⟩]).read
        (pathJoin (pathJoin "." "config") "s.cfg")
      = some (renderConfig (applyChanges (parseConfig "a=1\n") [("b", .int 2)])) ∧
    dictLookup (applyChanges (parseConfig "a=1\n") [("b", .int 2)]) "a" = some "1" :=
  ⟨(C3_rewrites_whole_file ⟨[("./config/s.cfg", "a=1\n")], []⟩ "." ⟨"s.cfg", [("b", .int 2)]⟩
      "a=1\n" rfl).1,
   (C3_rewrites_whole_file ⟨[("./config/s.cfg", "a=1\n")], []⟩ "." ⟨"s.cfg", [("b", .int 2)]⟩
      "a=1\n" rfl).2 "a" "1" (by decide) (by decide)⟩

/-- C4: a config line containing `=` is split into key and value at the first
`=` with both trimmed of surrounding whitespace; a line without `=` is
silently dropped; boolean change values are written as lowercase true/false
and all other values use their natural string form. -/
theorem C4_line_parsing (line : String) :
    (line.toList.contains '=' = false → parseLine line = none) ∧
    (∀ d, line.toList.contains '=' = false → parseConfigStep d line = d) ∧
    (∀ k v, parseLine line = some (k, v) →
      ∃ a b : List Char, stripChars line.toList = a ++ '=' :: b ∧ '=' ∉ a ∧
        k = String.mk (stripChars a) ∧ v = String.mk (stripChars b)) ∧
    (∀ b, stringifyValue (.bool b) = if b then "true" else "false") ∧
    (∀ s, stringifyValue (.str s) = s) ∧
    (∀ n, stringifyValue (.int n) = toString n) := by
  refine ⟨?_, ?_, ?_, ?_, ?_, ?_⟩
  · intro h
    unfold parseLine
    rw [if_neg (fun hc => Bool.noConfusion (h ▸ hc))]
  · intro d h
    unfold parseConfigStep parseLine
    rw [if_neg (fun hc => Bool.noConfusion (h ▸ hc))]
  · intro k v hkv
    by_cases hc : line.toList.contains '=' = true
    · unfold parseLine at hkv
      rw [if_pos hc] at hkv
      injection hkv with hpair
      have hm : ('=' : Char) ∈ line.toList := by simpa using hc
      have hm2 : ('=' : Char) ∈ stripChars line.toList :=
        mem_stripChars '=' (by decide) _ hm
      obtain ⟨h1, h2⟩ := splitFirstEq_spec _ hm2
      exact ⟨(splitFirstEq (stripChars line.toList)).1,
        (splitFirstEq (stripChars line.toList)).2, h1, h2,
        (congrArg Prod.fst hpair).symm, (congrArg Prod.snd hpair).symm⟩
    · unfold parseLine at hkv
      rw [if_neg hc] at hkv
      cases hkv
  · intro b; cases b <;> rfl
  · intro s; rfl
  · intro n; rfl

/-- Witness for C4 on concrete lines with and without an equals sign. -/
theorem C4_witness :
    parseConfigStep [("a", "1")] "comment line" = [("a", "1")] ∧
    parseLine "no equals" = none :=
  ⟨(C4_line_parsing "comment line").2.1 [("a", "1")] (by decide),
   (C4_line_parsing "no equals").1 (by decide)⟩

/-- C6: for a `config_downloads` entry, `download_configs` writes the freshly
fetched bytes to the destination under `config/` unconditionally: the
operation is exactly makedirs-then-write with no existence check, the
resulting file always holds the fetched bytes whatever was there before, and
repeating the download with the same entry leaves the state identical. -/
theorem C6_download_always_overwrites (fetch : String → String) (fs : FS)
    (instanceDir : String) (e : DownloadEntry) :
    download_configs fetch fs instanceDir [e]
      = (fs.makedirs (dirname (pathJoin (pathJoin instanceDir "config") e.file))).write
          (pathJoin (pathJoin instanceDir "config") e.file) (fetch e.url) ∧
    (download_configs fetch fs instanceDir [e]).read
        (pathJoin (pathJoin instanceDir "config") e.file)
      = some (fetch e.url) ∧
    download_configs fetch (download_configs fetch fs instanceDir [e]) instanceDir [e]
      = download_configs fetch fs instanceDir [e] := by
  refine ⟨rfl, FS.read_write_self _ _ _, ?_⟩
  show ((((fs.makedirs (dirname (pathJoin (pathJoin instanceDir "config") e.file))).write
        (pathJoin (pathJoin instanceDir "config") e.file) (fetch e.url)).makedirs
          (dirname (pathJoin (pathJoin instanceDir "config") e.file))).write
        (pathJoin (pathJoin instanceDir "config") e.file) (fetch e.url))
      = (fs.makedirs (dirname (pathJoin (pathJoin instanceDir "config") e.file))).write
          (pathJoin (pathJoin instanceDir "config") e.file) (fetch e.url)
  rw [FS.makedirs_write_makedirs, FS.write_write_self]

/-- C8: for every name in `remove_mods`, the remove loop of `patch_mods`
deletes the file of that name under `mods/` when it exists and otherwise
leaves the filesystem unchanged (no error), both as the head step of the
loop and for a single name. -/
theorem C8_remove_is_conditional_delete (modsDir : String) (fs : FS) (name : String)
    (rest : List String) :
    removeModsPhase modsDir fs (name :: rest)
      = removeModsPhase modsDir
          (if fs.existsFile (pathJoin modsDir name) then fs.remove (pathJoin modsDir name)
           else fs) rest ∧
    removeModsPhase modsDir fs [name]
      = (if fs.existsFile (pathJoin modsDir name) then fs.remove (pathJoin modsDir name)
         else fs) :=
  ⟨rfl, rfl⟩

/-- C9: the pipeline's result is independent of whether the optional tomlkit
dependency imported successfully: the source binds `tomlkit` (or `None` with
a warning on `ImportError`) and never uses it, so for every input the files
produced are identical whatever the availability flag. -/
theorem C9_tomlkit_noninterference (tomlkitAvailable : Bool) (fetch : String → String)
    (fs : FS) (instanceDir : String) (m : Manifest) :
    runPipeline tomlkitAvailable fetch fs instanceDir m
      = runPipeline true fetch fs instanceDir m := rfl

/-- C10: calling `load_manifest` with the empty string as the local path does
not take the local branch: the result is exactly the remote fetch of the
truthy given remote URL (the default URL when the remote argument is absent
or empty, mirroring Python's `remote or DEFAULT`), identical to passing no
local path, and is never a file-not-found error. -/
theorem C10_empty_local_path_goes_remote (fsRead : String → Option String)
    (http : String → HttpResult) (parseJson : String → Option Manifest)
    (remoteArg : Option String) :
    load_manifest fsRead http parseJson (some "") remoteArg
      = fetchRemote http parseJson (pyOrDefault remoteArg DEFAULT_REMOTE_MANIFEST) ∧
    load_manifest fsRead http parseJson (some "") remoteArg
      = load_manifest fsRead http parseJson none remoteArg ∧
    isNotFoundError (load_manifest fsRead http parseJson (some "") remoteArg) = false := by
  refine ⟨rfl, rfl, ?_⟩
  show isNotFoundError (fetchRemote http parseJson (pyOrDefault remoteArg DEFAULT_REMOTE_MANIFEST))
      = false
  exact isNotFoundError_fetchRemote http parseJson (pyOrDefault remoteArg DEFAULT_REMOTE_MANIFEST)

/-- C1 counterexample: running the full pipeline on a manifest whose four
fields are all empty creates only the `mods/` directory; the `config/`
directory is not created (its creation happens only inside the per-entry
loops of `edit_configs` and `download_configs`, which do not run). -/
theorem C1_counterexample :
    (runPipeline true (fun _ => "") ⟨[], []⟩ "." ⟨[], [], [], []⟩).dirs = ["./mods"] ∧
    (runPipeline true (fun _ => "") ⟨[], []⟩ "." ⟨[], [], [], []⟩).dirs.contains
        (pathJoin "." "config") = false := by
  decide

/-- C1 (amended): for every manifest in which `remove_mods`, `add_mods`,
`config_patches` and `config_downloads` are all empty, the pipeline leaves
the instance directory unchanged except for the creation of an empty `mods/`
directory; no `config/` directory is created. -/
theorem C1_empty_manifest_only_creates_mods (tk : Bool) (fetch : String → String)
    (fs : FS) (instanceDir : String) (m : Manifest) (h1 : m.remove_mods = [])
    (h2 : m.add_mods = []) (h3 : m.config_patches = []) (h4 : m.config_downloads = []) :
    runPipeline tk fetch fs instanceDir m = fs.mkdir (pathJoin instanceDir "mods") := by
  obtain ⟨rm, am, cp, cd⟩ := m
  simp only at h1 h2 h3 h4
  subst h1; subst h2; subst h3; subst h4
  rfl

/-- Witness for the amended C1 at a concrete empty filesystem. -/
theorem C1_witness :
    runPipeline true (fun _ => "") ⟨[], []⟩ "." ⟨[], [], [], []⟩
      = FS.mkdir ⟨[], []⟩ (pathJoin "." "mods") :=
  C1_empty_manifest_only_creates_mods true (fun _ => "") ⟨[], []⟩ "." ⟨[], [], [], []⟩
    rfl rfl rfl rfl

/-- C5: the add loop of `patch_mods` derives each destination file name from
the last `/`-separated segment of the entry's URL and downloads only when no
file of that name exists under `mods/`; for a manifest adding one entry (and
removing nothing), running `patch_mods` twice performs no download on the
second run — so the file is downloaded at most once — and no existing file
is ever overwritten. -/
theorem C5_add_mods_idempotent (fetch : String → String) (fs : FS) (instanceDir : String)
    (u : String) (cp : List ConfigPatch) (cd : List DownloadEntry) :
    (∀ (fs0 : FS) (mi : ModInfo) (rest : List ModInfo),
      addModsPhase fetch (pathJoin instanceDir "mods") fs0 (mi :: rest)
        = if fs0.existsFile (pathJoin (pathJoin instanceDir "mods") (urlLastSegment mi.url))
          then addModsPhase fetch (pathJoin instanceDir "mods") fs0 rest
          else
            ((addModsPhase fetch (pathJoin instanceDir "mods")
                (fs0.write (pathJoin (pathJoin instanceDir "mods") (urlLastSegment mi.url))
                  (fetch mi.url)) rest).1,
             mi.url :: (addModsPhase fetch (pathJoin instanceDir "mods")
                (fs0.write (pathJoin (pathJoin instanceDir "mods") (urlLastSegment mi.url))
                  (fetch mi.url)) rest).2)) ∧
    patch_mods fetch (patch_mods fetch fs instanceDir ⟨[], [⟨u⟩], cp, cd⟩).1 instanceDir
        ⟨[], [⟨u⟩], cp, cd⟩
      = ((patch_mods fetch fs instanceDir ⟨[], [⟨u⟩], cp, cd⟩).1, []) ∧
    (∀ p c, fs.read p = some c →
      ((patch_mods fetch fs instanceDir ⟨[], [⟨u⟩], cp, cd⟩).1).read p = some c) := by
  refine ⟨?_, ?_, ?_⟩
  · intro fs0 mi rest
    by_cases h : fs0.existsFile (pathJoin (pathJoin instanceDir "mods") (urlLastSegment mi.url))
        = true
    · simp [addModsPhase, h]
    · have h' : fs0.existsFile
          (pathJoin (pathJoin instanceDir "mods") (urlLastSegment mi.url)) = false := by
        simpa using h
      simp [addModsPhase, h']
  · have hpm : ∀ g : FS, patch_mods fetch g instanceDir ⟨[], [⟨u⟩], cp, cd⟩
        = addModsPhase fetch (pathJoin instanceDir "mods")
            (g.mkdir (pathJoin instanceDir "mods")) [⟨u⟩] := fun g => rfl
    rw [hpm, hpm]
    have hmk : ((addModsPhase fetch (pathJoin instanceDir "mods")
          (fs.mkdir (pathJoin instanceDir "mods")) [⟨u⟩]).1).mkdir (pathJoin instanceDir "mods")
        = (addModsPhase fetch (pathJoin instanceDir "mods")
            (fs.mkdir (pathJoin instanceDir "mods")) [⟨u⟩]).1 := by
      apply FS.mkdir_of_contains
      rw [addModsPhase_dirs]
      exact FS.mkdir_contains fs (pathJoin instanceDir "mods")
    rw [hmk]
    apply addModsPhase_skip
    intro mi hmi
    exact addModsPhase_dest_exists fetch (pathJoin instanceDir "mods") [⟨u⟩]
      (fs.mkdir (pathJoin instanceDir "mods")) mi hmi
  · intro p c hp
    have h0 : (fs.mkdir (pathJoin instanceDir "mods")).read p = some c := by
      rw [FS.read_mkdir]; exact hp
    exact addModsPhase_read_preserved fetch (pathJoin instanceDir "mods") [⟨u⟩]
      (fs.mkdir (pathJoin instanceDir "mods")) p c h0

/-- Witness for C5: a pre-existing mod file keeps its old content through
`patch_mods`. -/
theorem C5_witness :
    ((patch_mods (fun _ => "NEW") ⟨[(pathJoin (pathJoin "." "mods") "m.jar", "OLD")], []⟩ "."
        ⟨[], [⟨"https://host/m.jar"⟩], [], []⟩).1).read (pathJoin (pathJoin "." "mods") "m.jar")
      = some "OLD" :=
  (C5_add_mods_idempotent (fun _ => "NEW")
      ⟨[(pathJoin (pathJoin "." "mods") "m.jar", "OLD")], []⟩ "." "https://host/m.jar" [] []).2.2
    (pathJoin (pathJoin "." "mods") "m.jar") "OLD" (by decide)

/-- C7 counterexample: with the empty string given as the local path (a path
that does not exist on the modelled filesystem), `load_manifest` raises no
not-found error and gives the local path no precedence: `if local:` is false
for the empty string, so the manifest comes from the remote branch. -/
theorem C7_counterexample :
    load_manifest (fun _ => none) (fun _ => HttpResult.response 200 "body")
        (fun _ => some (⟨[], [], [], []⟩ : Manifest)) (some "") none
      = Except.ok (⟨[], [], [], []⟩ : Manifest) := rfl

/-- C7 (amended): a given non-empty local path takes precedence over any
remote URL (the remote oracle and remote argument are never consulted); with
no usable local path the manifest is fetched from the given remote URL when
that is non-empty or, otherwise, the default URL (Python's `remote or
DEFAULT`); a not-found error is raised exactly when the given non-empty
local path does not exist, an HTTP error when the remote response has a
4xx/5xx status, a parse error when the content is not valid JSON, and a
network error propagates as such. -/
theorem C7_load_manifest_behaviour (fsRead : String → Option String)
    (http : String → HttpResult) (parseJson : String → Option Manifest)
    (s : String) (remoteArg : Option String) (hs : s ≠ "") :
    (load_manifest fsRead http parseJson (some s) remoteArg
      = match fsRead s with
        | none => Except.error (LoadError.notFound s)
        | some content =>
          match parseJson content with
          | some m => Except.ok m
          | none => Except.error LoadError.parseError) ∧
    (∀ (http2 : String → HttpResult) (remote2 : Option String),
      load_manifest fsRead http parseJson (some s) remoteArg
        = load_manifest fsRead http2 parseJson (some s) remote2) ∧
    (load_manifest fsRead http parseJson none remoteArg
      = fetchRemote http parseJson (pyOrDefault remoteArg DEFAULT_REMOTE_MANIFEST)) ∧
    (∀ r : String, pyOrDefault (some r) DEFAULT_REMOTE_MANIFEST
      = if r == "" then DEFAULT_REMOTE_MANIFEST else r) ∧
    (pyOrDefault none DEFAULT_REMOTE_MANIFEST = DEFAULT_REMOTE_MANIFEST) ∧
    (∀ url st body, http url = HttpResult.response st body → (400 ≤ st && st < 600) = true →
      fetchRemote http parseJson url = Except.error (LoadError.httpError st)) ∧
    (∀ url st body, http url = HttpResult.response st body → (400 ≤ st && st < 600) = false →
      parseJson body = none → fetchRemote http parseJson url = Except.error LoadError.parseError) ∧
    (∀ url, http url = HttpResult.netError →
      fetchRemote http parseJson url = Except.error LoadError.netError) := by
  have ht : pyTruthy (some s) = true := by
    simp [pyTruthy, hs]
  refine ⟨?_, ?_, rfl, ?_, rfl, ?_, ?_, ?_⟩
  · simp [load_manifest, ht]
  · intro http2 remote2
    simp [load_manifest, ht]
  · intro r
    by_cases hr : r = ""
    · subst hr; rfl
    · simp [pyOrDefault, pyTruthy, hr]
  · intro url st body hurl hst
    unfold fetchRemote
    rw [hurl]
    simp [hst]
  · intro url st body hurl hst hparse
    unfold fetchRemote
    rw [hurl]
    simp [hst, hparse]
  · intro url hurl
    unfold fetchRemote
    rw [hurl]

/-- Witness for the amended C7 at a concrete existing local manifest. -/
theorem C7_witness :
    load_manifest (fun _ => some "content") (fun _ => HttpResult.netError)
        (fun _ => some (⟨[], [], [], []⟩ : Manifest)) (some "m.json") none
      = Except.ok (⟨[], [], [], []⟩ : Manifest) :=
  (C7_load_manifest_behaviour (fun _ => some "content") (fun _ => HttpResult.netError)
    (fun _ => some (⟨[], [], [], []⟩ : Manifest)) "m.json" none (by decide)).1
